import Mathlib

/-!
Verification of the Legion spy log parser (`tools/spy_parser.py`).

The parser reads a trace log line by line, classifies each line against a
fixed table of regular expressions (a shared node/thread prefix followed by
a record-kind keyword phrase and positional fields), dispatches the
extracted fields to a mutation call of an external `state` object, defers
lines whose mutation call returns `False` into `replay_lines`, and then
replays the deferred lines in full passes until either the deferred set is
empty (normal return of the match count) or a full pass resolves nothing
(fatal `assert False` after printing a fixed error message).

This file gives a shallow embedding of that parser:
* the regex table is embedded as a character-level matcher (the patterns
  use only literals and greedy character classes, each class being followed
  by a character outside the class, so greedy matching without backtracking
  is exactly Python's `re.match` semantics, unanchored at the end);
* the external state is a parameter: a function `Record → σ → Bool × σ`,
  mirroring the mutation-call interface (one entry point per record kind,
  returning a readiness verdict);
* the scan and replay loops are embedded as folds, with a trace of every
  mutation call issued (line, record, verdict) for specification purposes.
-/

namespace Spy

/-! ### Character classes of the regular expressions -/

/-- Class `[0-9]`. -/
def isDigitC (c : Char) : Bool := 48 ≤ c.toNat && c.toNat ≤ 57

/-- Class `[0-9a-f]` (thread identifiers). -/
def isHexC (c : Char) : Bool := isDigitC c || (97 ≤ c.toNat && c.toNat ≤ 102)

/-- Class `\w` = `[A-Za-z0-9_]` (Python 2 `re` without `re.UNICODE`). -/
def isWordC (c : Char) : Bool :=
  isDigitC c || (65 ≤ c.toNat && c.toNat ≤ 90) || (97 ≤ c.toNat && c.toNat ≤ 122) ||
    c.toNat == 95

/-- Class `[0-1]` (single-character boolean flags). -/
def isFlagC (c : Char) : Bool := c.toNat == 48 || c.toNat == 49

/-- Class `[0-9\,]` (the comma-separated field mask of `Copy Events`). -/
def isMaskC (c : Char) : Bool := isDigitC c || c.toNat == 44

/-! ### Pattern elements and the matcher -/

/-- One element of a pattern: a literal string, a captured one-or-more
character-class run (`(?P<f>[0-9]+)` and friends), or a captured single
character of a class (`(?P<f>[0-1])`). -/
inductive Elem where
  | lit (s : String)
  | grp (c : Char → Bool)
  | one (c : Char → Bool)

/-- Greedily split off the longest prefix of characters in class `c`. -/
def takeCls (c : Char → Bool) : List Char → List Char × List Char
  | [] => ([], [])
  | x :: xs =>
    if c x then
      let p := takeCls c xs
      (x :: p.1, p.2)
    else ([], x :: xs)

/-- Match a list of pattern elements at the start of `cs`, returning the
captures and the unconsumed suffix.  Trailing characters are allowed,
matching Python's `re.match` (anchored at the start only).  Each class run
in the source patterns is followed by a character outside its class, so
this backtracking-free greedy matcher agrees with the regex semantics. -/
def matchElems : List Elem → List Char → Option (List String × List Char)
  | [], cs => some ([], cs)
  | .lit s :: es, cs =>
    if s.toList.isPrefixOf cs then matchElems es (cs.drop s.toList.length) else none
  | .grp c :: es, cs =>
    match takeCls c cs with
    | ([], _) => none
    | (x :: xs, rest) =>
      match matchElems es rest with
      | some (caps, r) => some (String.mk (x :: xs) :: caps, r)
      | none => none
  | .one c :: es, cs =>
    match cs with
    | [] => none
    | x :: xs =>
      if c x then
        match matchElems es xs with
        | some (caps, r) => some (String.mk [x] :: caps, r)
        | none => none
      else none

/-- The shared prefix of every pattern:
`\[(?P<node>[0-9]+) - (?P<thread>[0-9a-f]+)\] \{\w+\}\{legion_spy\}: `. -/
def logHead : List Elem :=
  [.lit "[", .grp isDigitC, .lit " - ", .grp isHexC, .lit "] \x7b", .grp isWordC,
   .lit "\x7d\x7blegion_spy\x7d: "]

/-- Match the common prefix and then the kind-specific body, returning the
body's captures (the prefix captures, node and thread, are not used by any
mutation call in the source). -/
def matchPat (body : List Elem) (s : String) : Option (List String) :=
  match matchElems logHead s.toList with
  | none => none
  | some (_, rest) =>
    match matchElems body rest with
    | none => none
    | some (caps, _) => some caps

/-- Numeric value of a digit-only capture, as Python's `int`. -/
def natOf (s : String) : Nat := s.toList.foldl (fun n c => n * 10 + (c.toNat - 48)) 0

/-- Boolean value of a `[0-1]` capture, as `True if int(x) == 1 else False`. -/
def boolOf (s : String) : Bool := natOf s == 1

/-! ### Records

One constructor per record kind, carrying exactly the typed fields the
source passes to the corresponding `state.add_*` / `state.set_*` call. -/

/-- A classified record: kind plus the fields extracted from the line. -/
inductive Record where
  | utility (pid : Nat)
  | processor (pid util knd : Nat)
  | memory (mid capacity : Nat)
  | proc_mem (pid mid band lat : Nat)
  | mem_mem (mone mtwo band lat : Nat)
  | top_index (uid : Nat)
  | index_part (pid uid : Nat) (disjoint : Bool) (color : Nat)
  | index_subspace (pid uid color : Nat)
  | field_space (uid : Nat)
  | field_create (uid fid : Nat)
  | region (iid fid tid : Nat)
  | top_task (tid uid : Nat) (name : String)
  | single_task (ctx tid uid : Nat) (name : String)
  | index_task (ctx tid uid : Nat) (name : String)
  | mapping (ctx uid : Nat)
  | close (ctx uid : Nat)
  | copy_op (ctx uid : Nat)
  | deletion (ctx uid : Nat)
  | index_slice (idx slc : Nat)
  | slice_slice (slice1 slice2 : Nat)
  | slice_point (slc point dim val1 val2 val3 : Nat)
  | point_point (point1 point2 : Nat)
  | requirement (uid idx : Nat) (is_reg : Bool) (ispace fspace tid priv coher redop : Nat)
  | req_field (uid idx fid : Nat)
  | mapping_dep (ctx prev_id pidx next_id nidx dtype : Nat)
  | task_inst_req (uid idx index2 : Nat)
  | event_event (idone genone idtwo gentwo : Nat)
  | implicit_event (idone genone idtwo gentwo : Nat)
  | op_event (uid startid startgen termid termgen : Nat)
  | copy_event (srcman dstman idx field tree startid startgen termid termgen redop : Nat)
      (mask : String)
  | physical_inst (iid mid idx field tid : Nat)
  | physical_reduc (iid mid idx field tid : Nat) (fold : Bool) (indirect : Nat)
  | op_user (uid idx iid : Nat)
deriving DecidableEq

/-! ### The grammar table

One entry per source pattern, in the source's order.  `body` is the
regular expression after the common prefix; `build` converts the captures
into a `Record` exactly as the dispatch code converts `m.group(...)`. -/

/-- A pattern table entry: body regex and record builder. -/
structure PatEnt where
  body : List Elem
  build : List String → Option Record

/-- Shorthand for a captured `[0-9]+` field. -/
def D : Elem := .grp isDigitC

/-- Shorthand for the literal single space between fields. -/
def sp : Elem := .lit " "

/-- Shorthand for a captured `[0-1]` flag field. -/
def F : Elem := .one isFlagC

/-- Shorthand for a captured `\w+` name field. -/
def W : Elem := .grp isWordC

/-- `prefix+"Utility (?P<pid>[0-9]+)"`. -/
def utility_pat : PatEnt :=
  { body := [.lit "Utility ", D],
    build := fun caps =>
      match caps with
      | [pid] => some (.utility (natOf pid))
      | _ => none }

/-- `prefix+"Processor (?P<pid>[0-9]+) (?P<util>[0-9]+) (?P<kind>[0-9]+)"`. -/
def processor_pat : PatEnt :=
  { body := [.lit "Processor ", D, sp, D, sp, D],
    build := fun caps =>
      match caps with
      | [pid, util, knd] => some (.processor (natOf pid) (natOf util) (natOf knd))
      | _ => none }

/-- `prefix+"Memory (?P<mid>[0-9]+) (?P<capacity>[0-9]+)"`. -/
def memory_pat : PatEnt :=
  { body := [.lit "Memory ", D, sp, D],
    build := fun caps =>
      match caps with
      | [mid, capacity] => some (.memory (natOf mid) (natOf capacity))
      | _ => none }

/-- `prefix+"Processor Memory (?P<pid>[0-9]+) (?P<mid>[0-9]+) (?P<band>[0-9]+) (?P<lat>[0-9]+)"`. -/
def proc_mem_pat : PatEnt :=
  { body := [.lit "Processor Memory ", D, sp, D, sp, D, sp, D],
    build := fun caps =>
      match caps with
      | [pid, mid, band, lat] => some (.proc_mem (natOf pid) (natOf mid) (natOf band) (natOf lat))
      | _ => none }

/-- `prefix+"Memory Memory (?P<mone>[0-9]+) (?P<mtwo>[0-9]+) (?P<band>[0-9]+) (?P<lat>[0-9]+)"`. -/
def mem_mem_pat : PatEnt :=
  { body := [.lit "Memory Memory ", D, sp, D, sp, D, sp, D],
    build := fun caps =>
      match caps with
      | [mone, mtwo, band, lat] => some (.mem_mem (natOf mone) (natOf mtwo) (natOf band) (natOf lat))
      | _ => none }

/-- `prefix+"Index Space (?P<uid>[0-9]+)"`. -/
def top_index_pat : PatEnt :=
  { body := [.lit "Index Space ", D],
    build := fun caps =>
      match caps with
      | [uid] => some (.top_index (natOf uid))
      | _ => none }

/-- `prefix+"Index Partition (?P<pid>[0-9]+) (?P<uid>[0-9]+) (?P<disjoint>[0-1]) (?P<color>[0-9]+)"`. -/
def index_part_pat : PatEnt :=
  { body := [.lit "Index Partition ", D, sp, D, sp, F, sp, D],
    build := fun caps =>
      match caps with
      | [pid, uid, disjoint, color] =>
        some (.index_part (natOf pid) (natOf uid) (boolOf disjoint) (natOf color))
      | _ => none }

/-- `prefix+"Index Subspace (?P<pid>[0-9]+) (?P<uid>[0-9]+) (?P<color>[0-9]+)"`. -/
def index_subspace_pat : PatEnt :=
  { body := [.lit "Index Subspace ", D, sp, D, sp, D],
    build := fun caps =>
      match caps with
      | [pid, uid, color] => some (.index_subspace (natOf pid) (natOf uid) (natOf color))
      | _ => none }

/-- `prefix+"Field Space (?P<uid>[0-9]+)"`. -/
def field_space_pat : PatEnt :=
  { body := [.lit "Field Space ", D],
    build := fun caps =>
      match caps with
      | [uid] => some (.field_space (natOf uid))
      | _ => none }

/-- `prefix+"Field Creation (?P<uid>[0-9]+) (?P<fid>[0-9]+)"`. -/
def field_create_pat : PatEnt :=
  { body := [.lit "Field Creation ", D, sp, D],
    build := fun caps =>
      match caps with
      | [uid, fid] => some (.field_create (natOf uid) (natOf fid))
      | _ => none }

/-- `prefix+"Region (?P<iid>[0-9]+) (?P<fid>[0-9]+) (?P<tid>[0-9]+)"`. -/
def region_pat : PatEnt :=
  { body := [.lit "Region ", D, sp, D, sp, D],
    build := fun caps =>
      match caps with
      | [iid, fid, tid] => some (.region (natOf iid) (natOf fid) (natOf tid))
      | _ => none }

/-- `prefix+"Top Task (?P<tid>[0-9]+) (?P<uid>[0-9]+) (?P<name>\w+)"`. -/
def top_task_pat : PatEnt :=
  { body := [.lit "Top Task ", D, sp, D, sp, W],
    build := fun caps =>
      match caps with
      | [tid, uid, name] => some (.top_task (natOf tid) (natOf uid) name)
      | _ => none }

/-- `prefix+"Individual Task (?P<ctx>[0-9]+) (?P<tid>[0-9]+) (?P<uid>[0-9]+) (?P<name>\w+)"`. -/
def single_task_pat : PatEnt :=
  { body := [.lit "Individual Task ", D, sp, D, sp, D, sp, W],
    build := fun caps =>
      match caps with
      | [ctx, tid, uid, name] => some (.single_task (natOf ctx) (natOf tid) (natOf uid) name)
      | _ => none }

/-- `prefix+"Index Task (?P<ctx>[0-9]+) (?P<tid>[0-9]+) (?P<uid>[0-9]+) (?P<name>\w+)"`. -/
def index_task_pat : PatEnt :=
  { body := [.lit "Index Task ", D, sp, D, sp, D, sp, W],
    build := fun caps =>
      match caps with
      | [ctx, tid, uid, name] => some (.index_task (natOf ctx) (natOf tid) (natOf uid) name)
      | _ => none }

/-- `prefix+"Mapping Operation (?P<ctx>[0-9]+) (?P<uid>[0-9]+)"`. -/
def mapping_pat : PatEnt :=
  { body := [.lit "Mapping Operation ", D, sp, D],
    build := fun caps =>
      match caps with
      | [ctx, uid] => some (.mapping (natOf ctx) (natOf uid))
      | _ => none }

/-- `prefix+"Close Operation (?P<ctx>[0-9]+) (?P<uid>[0-9]+)"`. -/
def close_pat : PatEnt :=
  { body := [.lit "Close Operation ", D, sp, D],
    build := fun caps =>
      match caps with
      | [ctx, uid] => some (.close (natOf ctx) (natOf uid))
      | _ => none }

/-- `prefix+"Copy Operation (?P<ctx>[0-9]+) (?P<uid>[0-9]+)"`. -/
def copy_op_pat : PatEnt :=
  { body := [.lit "Copy Operation ", D, sp, D],
    build := fun caps =>
      match caps with
      | [ctx, uid] => some (.copy_op (natOf ctx) (natOf uid))
      | _ => none }

/-- `prefix+"Deletion Operation (?P<ctx>[0-9]+) (?P<uid>[0-9]+)"`. -/
def deletion_pat : PatEnt :=
  { body := [.lit "Deletion Operation ", D, sp, D],
    build := fun caps =>
      match caps with
      | [ctx, uid] => some (.deletion (natOf ctx) (natOf uid))
      | _ => none }

/-- `prefix+"Index Slice (?P<index>[0-9]+) (?P<slice>[0-9]+)"`. -/
def index_slice_pat : PatEnt :=
  { body := [.lit "Index Slice ", D, sp, D],
    build := fun caps =>
      match caps with
      | [idx, slc] => some (.index_slice (natOf idx) (natOf slc))
      | _ => none }

/-- `prefix+"Slice Slice (?P<slice1>[0-9]+) (?P<slice2>[0-9]+)"`. -/
def slice_slice_pat : PatEnt :=
  { body := [.lit "Slice Slice ", D, sp, D],
    build := fun caps =>
      match caps with
      | [slice1, slice2] => some (.slice_slice (natOf slice1) (natOf slice2))
      | _ => none }

/-- `prefix+"Slice Point (?P<slice>[0-9]+) (?P<point>[0-9]+) (?P<dim>[0-9]+) (?P<val1>[0-9]+) (?P<val2>[0-9]+) (?P<val3>[0-9]+)"`. -/
def slice_point_pat : PatEnt :=
  { body := [.lit "Slice Point ", D, sp, D, sp, D, sp, D, sp, D, sp, D],
    build := fun caps =>
      match caps with
      | [slc, point, dim, val1, val2, val3] =>
        some (.slice_point (natOf slc) (natOf point) (natOf dim) (natOf val1) (natOf val2)
          (natOf val3))
      | _ => none }

/-- `prefix+"Point Point (?P<point1>[0-9]+) (?P<point2>[0-9]+)"`. -/
def point_point_pat : PatEnt :=
  { body := [.lit "Point Point ", D, sp, D],
    build := fun caps =>
      match caps with
      | [point1, point2] => some (.point_point (natOf point1) (natOf point2))
      | _ => none }

/-- `prefix+"Logical Requirement (?P<uid>[0-9]+) (?P<index>[0-9]+) (?P<is_reg>[0-1]) (?P<ispace>[0-9]+) (?P<fspace>[0-9]+) (?P<tid>[0-9]+) (?P<priv>[0-9]+) (?P<coher>[0-9]+) (?P<redop>[0-9]+)"`. -/
def requirement_pat : PatEnt :=
  { body := [.lit "Logical Requirement ", D, sp, D, sp, F, sp, D, sp, D, sp, D, sp, D, sp, D,
      sp, D],
    build := fun caps =>
      match caps with
      | [uid, idx, isr, ispace, fspace, tid, priv, coher, redop] =>
        some (.requirement (natOf uid) (natOf idx) (boolOf isr) (natOf ispace) (natOf fspace)
          (natOf tid) (natOf priv) (natOf coher) (natOf redop))
      | _ => none }

/-- `prefix+"Logical Requirement Field (?P<uid>[0-9]+) (?P<index>[0-9]+) (?P<fid>[0-9]+)"`. -/
def req_field_pat : PatEnt :=
  { body := [.lit "Logical Requirement Field ", D, sp, D, sp, D],
    build := fun caps =>
      match caps with
      | [uid, idx, fid] => some (.req_field (natOf uid) (natOf idx) (natOf fid))
      | _ => none }

/-- `prefix+"Mapping Dependence (?P<ctx>[0-9]+) (?P<prev_id>[0-9]+) (?P<pidx>[0-9]+) (?P<next_id>[0-9]+) (?P<nidx>[0-9]+) (?P<dtype>[0-9]+)"`. -/
def mapping_dep_pat : PatEnt :=
  { body := [.lit "Mapping Dependence ", D, sp, D, sp, D, sp, D, sp, D, sp, D],
    build := fun caps =>
      match caps with
      | [ctx, prev_id, pidx, next_id, nidx, dtype] =>
        some (.mapping_dep (natOf ctx) (natOf prev_id) (natOf pidx) (natOf next_id) (natOf nidx)
          (natOf dtype))
      | _ => none }

/-- `prefix+"Task Instance Requirement (?P<uid>[0-9]+) (?P<idx>[0-9]+) (?P<index>[0-9]+)"`. -/
def task_inst_req_pat : PatEnt :=
  { body := [.lit "Task Instance Requirement ", D, sp, D, sp, D],
    build := fun caps =>
      match caps with
      | [uid, idx, index2] => some (.task_inst_req (natOf uid) (natOf idx) (natOf index2))
      | _ => none }

/-- `prefix+"Event Event (?P<idone>[0-9]+) (?P<genone>[0-9]+) (?P<idtwo>[0-9]+) (?P<gentwo>[0-9]+)"`. -/
def event_event_pat : PatEnt :=
  { body := [.lit "Event Event ", D, sp, D, sp, D, sp, D],
    build := fun caps =>
      match caps with
      | [idone, genone, idtwo, gentwo] =>
        some (.event_event (natOf idone) (natOf genone) (natOf idtwo) (natOf gentwo))
      | _ => none }

/-- `prefix+"Implicit Event (?P<idone>[0-9]+) (?P<genone>[0-9]+) (?P<idtwo>[0-9]+) (?P<gentwo>[0-9]+)"`. -/
def implicit_event_pat : PatEnt :=
  { body := [.lit "Implicit Event ", D, sp, D, sp, D, sp, D],
    build := fun caps =>
      match caps with
      | [idone, genone, idtwo, gentwo] =>
        some (.implicit_event (natOf idone) (natOf genone) (natOf idtwo) (natOf gentwo))
      | _ => none }

/-- `prefix+"Op Events (?P<uid>[0-9]+) (?P<startid>[0-9]+) (?P<startgen>[0-9]+) (?P<termid>[0-9]+) (?P<termgen>[0-9]+)"`. -/
def op_event_pat : PatEnt :=
  { body := [.lit "Op Events ", D, sp, D, sp, D, sp, D, sp, D],
    build := fun caps =>
      match caps with
      | [uid, startid, startgen, termid, termgen] =>
        some (.op_event (natOf uid) (natOf startid) (natOf startgen) (natOf termid)
          (natOf termgen))
      | _ => none }

/-- `prefix+"Copy Events (?P<srcman>[0-9]+) (?P<dstman>[0-9]+) (?P<index>[0-9]+) (?P<field>[0-9]+) (?P<tree>[0-9]+) (?P<startid>[0-9]+) (?P<startgen>[0-9]+) (?P<termid>[0-9]+) (?P<termgen>[0-9]+) (?P<redop>[0-9]+) (?P<mask>[0-9\,]+)"`. -/
def copy_event_pat : PatEnt :=
  { body := [.lit "Copy Events ", D, sp, D, sp, D, sp, D, sp, D, sp, D, sp, D, sp, D, sp, D,
      sp, D, sp, .grp isMaskC],
    build := fun caps =>
      match caps with
      | [srcman, dstman, idx, field, tree, startid, startgen, termid, termgen, redop, mask] =>
        some (.copy_event (natOf srcman) (natOf dstman) (natOf idx) (natOf field) (natOf tree)
          (natOf startid) (natOf startgen) (natOf termid) (natOf termgen) (natOf redop) mask)
      | _ => none }

/-- `prefix+"Physical Instance (?P<iid>[0-9]+) (?P<mid>[0-9]+) (?P<index>[0-9]+) (?P<field>[0-9]+) (?P<tid>[0-9]+)"`. -/
def physical_inst_pat : PatEnt :=
  { body := [.lit "Physical Instance ", D, sp, D, sp, D, sp, D, sp, D],
    build := fun caps =>
      match caps with
      | [iid, mid, idx, field, tid] =>
        some (.physical_inst (natOf iid) (natOf mid) (natOf idx) (natOf field) (natOf tid))
      | _ => none }

/-- `prefix+"Reduction Instance (?P<iid>[0-9]+) (?P<mid>[0-9]+) (?P<index>[0-9]+) (?P<field>[0-9]+) (?P<tid>[0-9]+) (?P<fold>[0-1]) (?P<indirect>[0-9]+)"`. -/
def physical_reduc_pat : PatEnt :=
  { body := [.lit "Reduction Instance ", D, sp, D, sp, D, sp, D, sp, D, sp, F, sp, D],
    build := fun caps =>
      match caps with
      | [iid, mid, idx, field, tid, fold, indirect] =>
        some (.physical_reduc (natOf iid) (natOf mid) (natOf idx) (natOf field) (natOf tid)
          (boolOf fold) (natOf indirect))
      | _ => none }

/-- `prefix+"Op Instance User (?P<uid>[0-9]+) (?P<idx>[0-9]+) (?P<iid>[0-9]+)"`. -/
def op_user_pat : PatEnt :=
  { body := [.lit "Op Instance User ", D, sp, D, sp, D],
    build := fun caps =>
      match caps with
      | [uid, idx, iid] => some (.op_user (natOf uid) (natOf idx) (natOf iid))
      | _ => none }

/-- The classifier table of the initial scan, in the order the `if/elif`
chain of `parse_log_file` tries the patterns (lines 80-244). -/
def scanTable : List PatEnt :=
  [utility_pat, processor_pat, memory_pat, proc_mem_pat, mem_mem_pat, top_index_pat,
   index_part_pat, index_subspace_pat, field_space_pat, field_create_pat, region_pat,
   top_task_pat, single_task_pat, index_task_pat, mapping_pat, close_pat, copy_op_pat,
   deletion_pat, index_slice_pat, slice_slice_pat, slice_point_pat, point_point_pat,
   requirement_pat, req_field_pat, mapping_dep_pat, task_inst_req_pat, event_event_pat,
   implicit_event_pat, op_event_pat, copy_event_pat, physical_inst_pat, physical_reduc_pat,
   op_user_pat]

/-- The patterns the replay loop re-matches deferred lines against, in the
order of the replay `for` body (lines 253-357).  Note the absence of
`field_create_pat`, `region_pat`, `deletion_pat`, `index_slice_pat` and
`slice_slice_pat`, although the initial scan can defer lines of those
kinds. -/
def replayTable : List PatEnt :=
  [processor_pat, proc_mem_pat, mem_mem_pat, index_part_pat, index_subspace_pat,
   single_task_pat, index_task_pat, mapping_pat, close_pat, copy_op_pat, slice_point_pat,
   point_point_pat, requirement_pat, req_field_pat, mapping_dep_pat, task_inst_req_pat,
   op_event_pat, copy_event_pat, physical_inst_pat, physical_reduc_pat, op_user_pat]

/-- First-match classification over a table. -/
def classifyT : List PatEnt → String → Option Record
  | [], _ => none
  | e :: es, s =>
    match matchPat e.body s with
    | some caps =>
      match e.build caps with
      | some r => some r
      | none => classifyT es s
    | none => classifyT es s

/-- Classification of a line during the initial scan. -/
def classify (s : String) : Option Record := classifyT scanTable s

/-- Re-classification of a deferred line inside a replay pass. -/
def replayClassify (s : String) : Option Record := classifyT replayTable s

/-! ### The dispatcher and the two phases

The external state is a parameter: a state type `σ` and one mutation
function `app : Record → σ → Bool × σ` standing for the per-kind
`state.add_*` / `state.set_*` entry points (the record's constructor
selects the entry point, its fields are the call's arguments, the `Bool`
is the readiness verdict).  The parser never inspects `σ` otherwise. -/

/-- Whether the initial scan checks the mutation call's verdict and defers
the line on `False` (`if not state.add_...: replay_lines.append(line)`).
The seven kinds below are dispatched with the verdict ignored:
`utility` (line 83), `memory` (92), `top_index` (107), `field_space`
(121), `top_task` (136), `event_event` (213), `implicit_event` (217). -/
def deferrable : Record → Bool
  | .utility _ => false
  | .memory _ _ => false
  | .top_index _ => false
  | .field_space _ => false
  | .top_task _ _ _ => false
  | .event_event _ _ _ _ => false
  | .implicit_event _ _ _ _ => false
  | _ => true

/-- One mutation call issued to the external state: the dispatched line,
the record extracted from it, and the verdict the call returned. -/
structure CallEv where
  line : String
  rcd : Record
  ok : Bool
deriving DecidableEq

/-- Accumulator of the initial scan: the running `matches` counter, the
external state, the `replay_lines` list and the trace of mutation calls. -/
structure ScanAcc (σ : Type) where
  matched : Nat
  st : σ
  defers : List String
  calls : List CallEv

/-- One iteration of the initial scan's `for line in log` loop:
`matches` is incremented, the line is classified against the full table,
a match dispatches the mutation call (appending the line to
`replay_lines` when the verdict is checked and `False`), and a
non-match decrements `matches` back (the skip message is accounted for
separately in `parse_log_file`). -/
def scanStep {σ : Type} (app : Record → σ → Bool × σ) (acc : ScanAcc σ) (line : String) :
    ScanAcc σ :=
  match classify line with
  | none => { acc with matched := acc.matched + 1 - 1 }
  | some r =>
    let v := app r acc.st
    { matched := acc.matched + 1, st := v.2,
      calls := acc.calls ++ [⟨line, r, v.1⟩],
      defers := if deferrable r && !v.1 then acc.defers ++ [line] else acc.defers }

/-- The whole initial scan of a log. -/
def scanAcc {σ : Type} (app : Record → σ → Bool × σ) (st0 : σ) (log : List String) :
    ScanAcc σ :=
  log.foldl (scanStep app) ⟨0, st0, [], []⟩

/-- The deferred set (`replay_lines`) right after the initial scan. -/
def scanDefers {σ : Type} (app : Record → σ → Bool × σ) (st0 : σ) (log : List String) :
    List String :=
  (scanAcc app st0 log).defers

/-- The `matches` counter right after the initial scan. -/
def scanMatches {σ : Type} (app : Record → σ → Bool × σ) (st0 : σ) (log : List String) :
    Nat :=
  (scanAcc app st0 log).matched

/-- Accumulator of one replay pass: external state, the `to_delete` set
(kept as a duplicate-free list in insertion order; Python iterates the
set in an unspecified order, but first-occurrence removals of distinct
lines commute, so the insertion order is a faithful choice) and the call
trace. -/
structure PassAcc (σ : Type) where
  st : σ
  toDelete : List String
  calls : List CallEv

/-- One iteration of the replay pass's `for line in replay_lines` loop:
the deferred line is re-matched against the replay table only; on a match
the mutation call is issued and a `True` verdict adds the line to
`to_delete`; a line matching no replay pattern is left untouched. -/
def passStep {σ : Type} (app : Record → σ → Bool × σ) (acc : PassAcc σ) (line : String) :
    PassAcc σ :=
  match replayClassify line with
  | none => acc
  | some r =>
    let v := app r acc.st
    { st := v.2,
      calls := acc.calls ++ [⟨line, r, v.1⟩],
      toDelete := if v.1 && !(acc.toDelete.contains line) then acc.toDelete ++ [line]
                  else acc.toDelete }

/-- One full replay pass over the current `replay_lines`. -/
def runPass {σ : Type} (app : Record → σ → Bool × σ) (st : σ) (calls : List CallEv)
    (replay : List String) : PassAcc σ :=
  replay.foldl (passStep app) ⟨st, [], calls⟩

/-- The `to_delete` set a pass computes (independent of the incoming call
trace). -/
def passResolved {σ : Type} (app : Record → σ → Bool × σ) (st : σ)
    (replay : List String) : List String :=
  (runPass app st [] replay).toDelete

/-- The external state after a pass. -/
def passState {σ : Type} (app : Record → σ → Bool × σ) (st : σ)
    (replay : List String) : σ :=
  (runPass app st [] replay).st

/-- The deferred set after the end-of-pass removals
(`for line in to_delete: replay_lines.remove(line)` — `list.remove`
deletes the first occurrence only). -/
def nextReplay {σ : Type} (app : Record → σ → Bool × σ) (st : σ)
    (replay : List String) : List String :=
  List.foldl List.erase replay (passResolved app st replay)

/-- Decidable equality of run results, so that concrete runs can be
checked by `decide`. -/
instance {ε α : Type} [DecidableEq ε] [DecidableEq α] : DecidableEq (Except ε α) :=
  fun a b =>
    match a, b with
    | .ok x, .ok y =>
      if h : x = y then isTrue (by rw [h]) else isFalse (by simp [h])
    | .error x, .error y =>
      if h : x = y then isTrue (by rw [h]) else isFalse (by simp [h])
    | .ok _, .error _ => isFalse (by simp)
    | .error _, .ok _ => isFalse (by simp)

/-- Outcome of the replay phase: the final state, the completed call
trace, and either the returned `matches` count or, for the fatal
`assert False` stall, the `replay_lines` content at the abort. -/
structure LoopOut (σ : Type) where
  st : σ
  calls : List CallEv
  result : Except (List String) Nat

/-- The replay `while` loop, with an explicit fuel argument.  Each
continuing pass strictly shrinks `replay_lines` (see
`nextReplay_length_lt`), so any fuel above the current length makes the
fuel bound unreachable (`replayIter_fuel`); `replayLoop` instantiates the
fuel accordingly and is therefore an exact rendering of the source loop. -/
def replayIter {σ : Type} (app : Record → σ → Bool × σ) :
    Nat → Nat → σ → List CallEv → List String → LoopOut σ
  | 0, _, st, calls, replay => ⟨st, calls, .error replay⟩
  | f + 1, m, st, calls, replay =>
    if replay.isEmpty then ⟨st, calls, .ok m⟩
    else
      let acc := runPass app st calls replay
      if acc.toDelete.isEmpty then ⟨acc.st, acc.calls, .error replay⟩
      else replayIter app f m acc.st acc.calls
        (List.foldl List.erase replay acc.toDelete)

/-- The replay phase: `while len(replay_lines) > 0` with the no-progress
`assert False` (modelled as the `.error` result carrying the deferred
lines remaining at the abort). -/
def replayLoop {σ : Type} (app : Record → σ → Bool × σ) (m : Nat) (st : σ)
    (calls : List CallEv) (replay : List String) : LoopOut σ :=
  replayIter app (replay.length + 1) m st calls replay

/-- The message printed for a line matching no pattern. -/
def skipMsg (line : String) : String := "Skipping unmatched line: " ++ line

/-- The message printed right before the no-progress `assert False`. -/
def errMsg : String := "ERROR: NO PROGRESS PARSING! BUG IN LEGION SPY LOGGING ASSUMPTIONS!"

/-- Result of a whole run: everything the parser prints (in order), the
final external state, the full call trace, and the result (`.ok matches`
for a normal return, `.error remaining` for the fatal stall). -/
structure RunResult (σ : Type) where
  output : List String
  st : σ
  calls : List CallEv
  result : Except (List String) Nat

/-- The embedded `parse_log_file`: initial scan, then the replay loop.
The printed output is the skip message of each unclassified line, in log
order, followed by the error message when the run stalls. -/
def parse_log_file {σ : Type} (log : List String) (app : Record → σ → Bool × σ)
    (st0 : σ) : RunResult σ :=
  let a := scanAcc app st0 log
  let r := replayLoop app a.matched a.st a.calls a.defers
  { output := (log.filter (fun l => (classify l).isNone)).map skipMsg ++
      (match r.result with
       | .error _ => [errMsg]
       | .ok _ => []),
    st := r.st, calls := r.calls, result := r.result }

/-! ### A concrete external state

The state object (`spy_analysis.State`) is not part of the sources under
verification, so the concrete runs below use a model of its mutation
calls built from the specification. -/

/-- Modelled from the spec: the External State's entity accumulator for
the record kinds exercised by the concrete runs in this file (the class
`State` of `spy_analysis`, imported but not present in the sources).  Per
the spec's mutation-call interface, a dependent kind's call returns
`False` without side effects when a referenced entity is absent and
`True` (committing the entity) otherwise, and repeated calls do not
commit twice. -/
structure SpyState where
  utilities : List Nat
  procs : List Nat
  memories : List Nat
  ispaces : List Nat
  iparts : List Nat
  fspaces : List Nat
  fieldDecls : List (Nat × Nat)
  events : List (Nat × Nat)
deriving DecidableEq

/-- The empty initial state. -/
def initState : SpyState := ⟨[], [], [], [], [], [], [], []⟩

/-- Insert an entity unless already present (idempotent commit). -/
def addOnce {α : Type} [DecidableEq α] (x : α) (l : List α) : List α :=
  if l.contains x then l else l ++ [x]

/-- Modelled from the spec: the mutation-call entry points of the missing
`spy_analysis.State`, for the kinds exercised by the concrete runs below.
Unconditional kinds (utility processors, memories, top-level index
spaces, field spaces) always succeed; dependent kinds check their
referenced entity: a processor references its utility processor, an
index partition its parent index space, an index subspace its parent
partition, a field creation its field space, and an event-to-event edge
its two endpoint events.  Kinds not exercised by the concrete runs in
this file are given the trivial always-succeed semantics. -/
def specApply : Record → SpyState → Bool × SpyState
  | .utility pid, st => (true, { st with utilities := addOnce pid st.utilities })
  | .processor pid util _, st =>
    if st.utilities.contains util then (true, { st with procs := addOnce pid st.procs })
    else (false, st)
  | .memory mid _, st => (true, { st with memories := addOnce mid st.memories })
  | .top_index uid, st => (true, { st with ispaces := addOnce uid st.ispaces })
  | .index_part pid uid _ _, st =>
    if st.ispaces.contains pid then (true, { st with iparts := addOnce uid st.iparts })
    else (false, st)
  | .index_subspace pid uid _, st =>
    if st.iparts.contains pid then (true, { st with ispaces := addOnce uid st.ispaces })
    else (false, st)
  | .field_space uid, st => (true, { st with fspaces := addOnce uid st.fspaces })
  | .field_create uid fid, st =>
    if st.fspaces.contains uid then
      (true, { st with fieldDecls := addOnce (uid, fid) st.fieldDecls })
    else (false, st)
  | .event_event idone genone idtwo gentwo, st =>
    if st.events.contains (idone, genone) && st.events.contains (idtwo, gentwo) then (true, st)
    else (false, st)
  | _, st => (true, st)

/-! ### Concrete log lines for the scenario runs -/

/-- A utility-processor declaration line (id 5). -/
def uLine : String := "[0 - 0] \x7bw\x7d\x7blegion_spy\x7d: Utility 5"

/-- A processor declaration line (id 7, utility 5, kind 1). -/
def pLine : String := "[0 - 0] \x7bw\x7d\x7blegion_spy\x7d: Processor 7 5 1"

/-- A field-creation line (field 2 in field space 1). -/
def fcLine : String := "[0 - 0] \x7bw\x7d\x7blegion_spy\x7d: Field Creation 1 2"

/-- A field-space declaration line (id 1). -/
def fsLine : String := "[0 - 0] \x7bw\x7d\x7blegion_spy\x7d: Field Space 1"

/-- An event-to-event edge line. -/
def evLine : String := "[0 - 0] \x7bw\x7d\x7blegion_spy\x7d: Event Event 1 2 3 4"

/-- An index-subspace declaration line whose parent partition (5) never
appears in any log below. -/
def subLine : String := "[0 - 0] \x7bw\x7d\x7blegion_spy\x7d: Index Subspace 5 6 0"

/-- A line matching no grammar pattern. -/
def junkLine : String := "some decorative line"

/-- A trivial always-succeeding external state, for instantiations that
only exercise the parser's control flow. -/
def trivApply : Record → Unit → Bool × Unit := fun _ _ => (true, ())

/-! ### Specification-side view of the replay loop

One replay pass as a partial step function on (state, deferred set)
pairs: defined exactly when the loop would run another pass, i.e. when
the deferred set is non-empty and the pass resolves something.  Iterating
it gives the loop's trace of pass boundaries, used to state the
stall/succeed characterization. -/

/-- One pass of the replay loop as a partial step: `none` when the loop
would stop here (deferred set empty, or a non-empty pass resolving
nothing). -/
def stepFn {σ : Type} (app : Record → σ → Bool × σ) (p : σ × List String) :
    Option (σ × List String) :=
  if p.2 = [] then none
  else if passResolved app p.1 p.2 = [] then none
  else some (passState app p.1 p.2, nextReplay app p.1 p.2)

/-- Iterate `stepFn` `k` times (absorbing at `none`). -/
def stepN {σ : Type} (app : Record → σ → Bool × σ) :
    Nat → σ × List String → Option (σ × List String)
  | 0, p => some p
  | k + 1, p =>
    match stepFn app p with
    | none => none
    | some q => stepN app k q

/-! ### Grammar-separation checker

The mutual-exclusivity claim is settled through a decidable sufficient
criterion on pattern bodies: two bodies are separated when their leading
keyword literals differ at some position, or when one keyword extends the
other and the shorter body continues with a character class excluding the
extension's next character. -/

/-- Whether a body's next element is a character class rejecting `x`. -/
def clsBlocks : List Elem → Char → Bool
  | .grp c :: _, x => !(c x)
  | .one c :: _, x => !(c x)
  | _, _ => false

/-- Decidable separation of two pattern bodies (no input can match
both). -/
def bodySep : List Elem → List Elem → Bool
  | .lit s1 :: r1, .lit s2 :: r2 =>
    if s1.toList = s2.toList then false
    else if s1.toList.isPrefixOf s2.toList then
      match s2.toList.drop s1.toList.length with
      | c :: _ => clsBlocks r1 c
      | [] => false
    else if s2.toList.isPrefixOf s1.toList then
      match s1.toList.drop s2.toList.length with
      | c :: _ => clsBlocks r2 c
      | [] => false
    else true
  | _, _ => false

/-- Pairwise separation of a whole grammar table. -/
def tableSep : List PatEnt → Bool
  | [] => true
  | e :: es => es.all (fun e2 => bodySep e.body e2.body) && tableSep es

/-! ## Helper lemmas -/

/-! ### Initial-scan lemmas -/

/-- A line matching no grammar leaves the scan accumulator unchanged
(the counter is incremented and then decremented back). -/
theorem scanStep_unclassified {σ : Type} (app : Record → σ → Bool × σ) (acc : ScanAcc σ)
    (line : String) (h : classify line = none) : scanStep app acc line = acc := by
  cases acc
  simp [scanStep, h]

/-- The scan's `matches` counter counts exactly the classified lines. -/
theorem scanFold_matched {σ : Type} (app : Record → σ → Bool × σ) :
    ∀ (log : List String) (acc : ScanAcc σ),
      (log.foldl (scanStep app) acc).matched =
        acc.matched + log.countP (fun l => (classify l).isSome) := by
  intro log
  induction log with
  | nil => simp
  | cons a log ih =>
    intro acc
    rw [List.foldl_cons, ih, List.countP_cons]
    cases h : classify a with
    | none => simp [scanStep, h]
    | some r => simp [scanStep, h] ; omega

/-- Every line the scan defers classified to a verdict-checked kind. -/
theorem scanFold_defers_classified {σ : Type} (app : Record → σ → Bool × σ) :
    ∀ (log : List String) (acc : ScanAcc σ) (l : String),
      l ∈ (log.foldl (scanStep app) acc).defers →
        l ∈ acc.defers ∨ ∃ r, classify l = some r ∧ deferrable r = true := by
  intro log
  induction log with
  | nil => intro acc l h ; exact Or.inl h
  | cons a log ih =>
    intro acc l h
    rw [List.foldl_cons] at h
    rcases ih _ l h with h' | h'
    · cases hc : classify a with
      | none =>
        rw [scanStep_unclassified app acc a hc] at h'
        exact Or.inl h'
      | some r =>
        simp only [scanStep, hc] at h'
        by_cases hd : (deferrable r && !(app r acc.st).1) = true
        · rw [if_pos hd] at h'
          rcases List.mem_append.mp h' with h'' | h''
          · exact Or.inl h''
          · have : l = a := by simpa using h''
            subst this
            exact Or.inr ⟨r, hc, (Bool.and_eq_true _ _).mp hd |>.1⟩
        · rw [if_neg hd] at h'
          exact Or.inl h'
    · exact Or.inr h'

/-- Appending one classified, verdict-checked line whose call returns
`False` at the state the scan has reached defers exactly that line. -/
theorem scanFold_defers_append {σ : Type} (app : Record → σ → Bool × σ) (acc : ScanAcc σ)
    (l : String) (r : Record) (hc : classify l = some r) (hd : deferrable r = true)
    (hv : (app r acc.st).1 = false) :
    ((acc.defers ++ [l]) : List String) = (scanStep app acc l).defers := by
  simp [scanStep, hc, hd, hv]

/-! ### Replay-pass lemmas -/

/-- The incoming call trace influences neither the state nor the
`to_delete` set a pass computes; it is only a prefix of the outgoing
trace. -/
theorem passFold_decomp {σ : Type} (app : Record → σ → Bool × σ) :
    ∀ (R : List String) (st : σ) (td : List String) (c : List CallEv),
      (List.foldl (passStep app) ⟨st, td, c⟩ R).st =
          (List.foldl (passStep app) (⟨st, td, []⟩ : PassAcc σ) R).st ∧
        (List.foldl (passStep app) ⟨st, td, c⟩ R).toDelete =
          (List.foldl (passStep app) (⟨st, td, []⟩ : PassAcc σ) R).toDelete ∧
        (List.foldl (passStep app) ⟨st, td, c⟩ R).calls =
          c ++ (List.foldl (passStep app) (⟨st, td, []⟩ : PassAcc σ) R).calls := by
  intro R
  induction R with
  | nil => intro st td c ; exact ⟨rfl, rfl, by simp⟩
  | cons a R ih =>
    intro st td c
    rw [List.foldl_cons, List.foldl_cons]
    cases hc : replayClassify a with
    | none => simpa [passStep, hc] using ih st td c
    | some r =>
      simp only [passStep, hc, List.nil_append]
      rcases ih (app r st).2
          (if (app r st).1 && !(td.contains a) then td ++ [a] else td) (c ++ [⟨a, r, (app r st).1⟩])
        with ⟨h1, h2, h3⟩
      rcases ih (app r st).2
          (if (app r st).1 && !(td.contains a) then td ++ [a] else td) ([⟨a, r, (app r st).1⟩])
        with ⟨h1', h2', h3'⟩
      refine ⟨h1.trans h1'.symm, h2.trans h2'.symm, ?_⟩
      rw [h3, h3']
      simp

/-- Every line a pass resolves was in the pass's input. -/
theorem passFold_toDelete_mem {σ : Type} (app : Record → σ → Bool × σ) :
    ∀ (R : List String) (acc : PassAcc σ) (l : String),
      l ∈ (List.foldl (passStep app) acc R).toDelete → l ∈ acc.toDelete ∨ l ∈ R := by
  intro R
  induction R with
  | nil => intro acc l h ; exact Or.inl h
  | cons a R ih =>
    intro acc l h
    rw [List.foldl_cons] at h
    rcases ih _ l h with h' | h'
    · cases hc : replayClassify a with
      | none => simp only [passStep, hc] at h' ; exact Or.inl h'
      | some r =>
        simp only [passStep, hc] at h'
        by_cases hk : ((app r acc.st).1 && !(acc.toDelete.contains a)) = true
        · rw [if_pos hk] at h'
          rcases List.mem_append.mp h' with h'' | h''
          · exact Or.inl h''
          · have : l = a := by simpa using h''
            exact Or.inr (this ▸ List.mem_cons_self a R)
        · rw [if_neg hk] at h'
          exact Or.inl h'
    · exact Or.inr (List.mem_cons_of_mem a h')

/-- The `to_delete` set only grows along a pass. -/
theorem passFold_toDelete_mono {σ : Type} (app : Record → σ → Bool × σ) :
    ∀ (R : List String) (acc : PassAcc σ) (l : String),
      l ∈ acc.toDelete → l ∈ (List.foldl (passStep app) acc R).toDelete := by
  intro R
  induction R with
  | nil => intro acc l h ; exact h
  | cons a R ih =>
    intro acc l h
    rw [List.foldl_cons]
    refine ih _ l ?_
    cases hc : replayClassify a with
    | none => simpa [passStep, hc] using h
    | some r =>
      simp only [passStep, hc]
      by_cases hk : ((app r acc.st).1 && !(acc.toDelete.contains a)) = true
      · rw [if_pos hk] ; exact List.mem_append_left _ h
      · rw [if_neg hk] ; exact h

/-- Per-line dispatch count of one pass: each occurrence of a line that
matches a replay pattern is dispatched exactly once, and a line matching
no replay pattern is never dispatched. -/
theorem passFold_countLine {σ : Type} (app : Record → σ → Bool × σ) :
    ∀ (R : List String) (acc : PassAcc σ) (l : String),
      ((List.foldl (passStep app) acc R).calls.countP (fun ev => ev.line == l)) =
        acc.calls.countP (fun ev => ev.line == l) +
          (if (replayClassify l).isSome then R.count l else 0) := by
  intro R
  induction R with
  | nil => intro acc l ; simp
  | cons a R ih =>
    intro acc l
    rw [List.foldl_cons, ih, List.count_cons]
    by_cases hla : l = a
    · subst hla
      cases hc : replayClassify l with
      | none =>
        have hstep : passStep app acc l = acc := by simp [passStep, hc]
        rw [hstep]
        simp [hc]
      | some r =>
        have hcalls : (passStep app acc l).calls = acc.calls ++ [⟨l, r, (app r acc.st).1⟩] := by
          simp [passStep, hc]
        rw [hcalls, List.countP_append]
        simp [hc, List.countP_cons]
        omega
    · have hne1 : (l == a) = false := beq_eq_false_iff_ne.mpr hla
      cases hc : replayClassify a with
      | none =>
        have hstep : passStep app acc a = acc := by simp [passStep, hc]
        rw [hstep]
        simp [hne1, Ne.symm hla]
      | some r =>
        have hne2 : ((a : String) == l) = false := beq_eq_false_iff_ne.mpr (Ne.symm hla)
        have hcalls : (passStep app acc a).calls = acc.calls ++ [⟨a, r, (app r acc.st).1⟩] := by
          simp [passStep, hc]
        rw [hcalls, List.countP_append]
        simp [List.countP_cons, hne1, hne2]

/-- Per-line successful-dispatch count of one pass is bounded by the
line's multiplicity in the pass input. -/
theorem passFold_countTrue_le {σ : Type} (app : Record → σ → Bool × σ) :
    ∀ (R : List String) (acc : PassAcc σ) (l : String),
      ((List.foldl (passStep app) acc R).calls.countP (fun ev => ev.line == l && ev.ok)) ≤
        acc.calls.countP (fun ev => ev.line == l && ev.ok) + R.count l := by
  intro R
  induction R with
  | nil => intro acc l ; simp
  | cons a R ih =>
    intro acc l
    rw [List.foldl_cons, List.count_cons]
    refine le_trans (ih _ l) ?_
    cases hc : replayClassify a with
    | none =>
      have hstep : passStep app acc a = acc := by simp [passStep, hc]
      rw [hstep]
      omega
    | some r =>
      have hcalls : (passStep app acc a).calls = acc.calls ++ [⟨a, r, (app r acc.st).1⟩] := by
        simp [passStep, hc]
      rw [hcalls, List.countP_append]
      have hone : List.countP (fun ev => ev.line == l && ev.ok)
          ([⟨a, r, (app r acc.st).1⟩] : List CallEv) ≤
          if a == l then 1 else 0 := by
        by_cases hla : l = a
        · subst hla
          simp [List.countP_cons]
          split <;> omega
        · have hne2 : ((a : String) == l) = false := beq_eq_false_iff_ne.mpr (Ne.symm hla)
          simp [List.countP_cons, hne2, beq_eq_false_iff_ne.mpr hla]
      omega

/-- The incoming call trace is a prefix of a pass's outgoing trace. -/
theorem passFold_calls_prefix {σ : Type} (app : Record → σ → Bool × σ) :
    ∀ (R : List String) (acc : PassAcc σ),
      ∃ d, (List.foldl (passStep app) acc R).calls = acc.calls ++ d := by
  intro R
  induction R with
  | nil => intro acc ; exact ⟨[], by simp⟩
  | cons a R ih =>
    intro acc
    rw [List.foldl_cons]
    rcases ih (passStep app acc a) with ⟨d, hd⟩
    cases hc : replayClassify a with
    | none => refine ⟨d, ?_⟩ ; rw [hd] ; simp [passStep, hc]
    | some r =>
      refine ⟨⟨a, r, (app r acc.st).1⟩ :: d, ?_⟩
      rw [hd]
      simp [passStep, hc]

/-- If a pass issues a successful call for line `l`, then `l` ends the
pass in `to_delete`. -/
theorem passFold_true_toDelete {σ : Type} (app : Record → σ → Bool × σ) :
    ∀ (R : List String) (acc : PassAcc σ) (l : String),
      acc.calls.countP (fun ev => ev.line == l && ev.ok) <
          ((List.foldl (passStep app) acc R).calls.countP (fun ev => ev.line == l && ev.ok)) →
        l ∈ (List.foldl (passStep app) acc R).toDelete := by
  intro R
  induction R with
  | nil => intro acc l h ; exact absurd rfl (Nat.ne_of_gt h)
  | cons a R ih =>
    intro acc l h
    rw [List.foldl_cons] at h ⊢
    cases hc : replayClassify a with
    | none =>
      have hstep : passStep app acc a = acc := by simp [passStep, hc]
      rw [hstep] at h ⊢
      exact ih acc l h
    | some r =>
      by_cases hev : ((a == l) && (app r acc.st).1) = true
      · rcases Bool.and_eq_true _ _ |>.mp hev with ⟨hl, hv⟩
        have hla : a = l := by simpa using hl
        subst hla
        refine passFold_toDelete_mono app R _ a ?_
        have htd : (passStep app acc a).toDelete =
            if (app r acc.st).1 && !(acc.toDelete.contains a) then acc.toDelete ++ [a]
            else acc.toDelete := by
          simp [passStep, hc]
        rw [htd]
        by_cases hmem : acc.toDelete.contains a = true
        · have hin : a ∈ acc.toDelete := by simpa using hmem
          rw [hv, hmem]
          simpa using hin
        · have hmem' : acc.toDelete.contains a = false := by simpa using hmem
          rw [hv, hmem']
          simp
      · have hf : ((a == l) && (app r acc.st).1) = false := by
          simpa using hev
        have hcount : (passStep app acc a).calls.countP (fun ev => ev.line == l && ev.ok) =
            acc.calls.countP (fun ev => ev.line == l && ev.ok) := by
          have hcalls : (passStep app acc a).calls = acc.calls ++ [⟨a, r, (app r acc.st).1⟩] := by
            simp [passStep, hc]
          rw [hcalls, List.countP_append]
          simp [List.countP_cons, hf]
        refine ih _ l ?_
        rw [hcount]
        exact h

/-- The state a pass computes does not depend on the incoming trace. -/
theorem runPass_st {σ : Type} (app : Record → σ → Bool × σ) (st : σ) (calls : List CallEv)
    (replay : List String) : (runPass app st calls replay).st = passState app st replay := by
  unfold runPass passState runPass
  exact (passFold_decomp app replay st [] calls).1

/-- The `to_delete` set a pass computes does not depend on the incoming
trace. -/
theorem runPass_toDelete {σ : Type} (app : Record → σ → Bool × σ) (st : σ)
    (calls : List CallEv) (replay : List String) :
    (runPass app st calls replay).toDelete = passResolved app st replay := by
  unfold runPass passResolved runPass
  exact (passFold_decomp app replay st [] calls).2.1

/-- A pass appends its own calls to the incoming trace. -/
theorem runPass_calls {σ : Type} (app : Record → σ → Bool × σ) (st : σ)
    (calls : List CallEv) (replay : List String) :
    (runPass app st calls replay).calls = calls ++ (runPass app st [] replay).calls := by
  unfold runPass
  exact (passFold_decomp app replay st [] calls).2.2

/-! ### End-of-pass removal lemmas -/

/-- Removing first occurrences leaves a sublist. -/
theorem eraseFold_sublist : ∀ (ds l : List String), List.Sublist (List.foldl List.erase l ds) l := by
  intro ds
  induction ds with
  | nil => intro l ; simp
  | cons d ds ih =>
    intro l
    rw [List.foldl_cons]
    exact (ih (l.erase d)).trans (List.erase_sublist d l)

/-- Removing first occurrences never lengthens the list. -/
theorem eraseFold_length_le (ds l : List String) :
    (List.foldl List.erase l ds).length ≤ l.length :=
  (eraseFold_sublist ds l).length_le

/-- Removing a non-empty `to_delete` whose first element occurs in the
list strictly shrinks it. -/
theorem eraseFold_length_lt (d : String) (ds l : List String) (h : d ∈ l) :
    (List.foldl List.erase l (d :: ds)).length < l.length := by
  rw [List.foldl_cons]
  have h1 := eraseFold_length_le ds (l.erase d)
  have h2 : (l.erase d).length = l.length - 1 := List.length_erase_of_mem h
  have h3 : 0 < l.length := List.length_pos.mpr (List.ne_nil_of_mem h)
  omega

/-- Removal preserves duplicate-freedom. -/
theorem eraseFold_nodup : ∀ (ds l : List String), l.Nodup →
    (List.foldl List.erase l ds).Nodup := by
  intro ds
  induction ds with
  | nil => intro l h ; simpa using h
  | cons d ds ih =>
    intro l h
    rw [List.foldl_cons]
    exact ih _ (h.erase d)

/-- In a duplicate-free list, a removed line is gone entirely. -/
theorem eraseFold_not_mem : ∀ (ds l : List String) (x : String), l.Nodup → x ∈ ds →
    x ∉ List.foldl List.erase l ds := by
  intro ds
  induction ds with
  | nil => intro l x _ hx ; cases hx
  | cons d ds ih =>
    intro l x hn hx
    rw [List.foldl_cons]
    rcases List.mem_cons.mp hx with hx | hx
    · subst hx
      intro hmem
      exact hn.not_mem_erase ((eraseFold_sublist ds (l.erase x)).subset hmem)
    · exact ih (l.erase d) x (hn.erase d) hx

/-! ### Replay-loop lemmas -/

/-- One-step unfolding of `replayIter` at positive fuel. -/
theorem replayIter_succ {σ : Type} (app : Record → σ → Bool × σ) (f m : Nat) (st : σ)
    (calls : List CallEv) (replay : List String) :
    replayIter app (f + 1) m st calls replay =
      if replay.isEmpty then ⟨st, calls, .ok m⟩
      else if (runPass app st calls replay).toDelete.isEmpty then
        ⟨(runPass app st calls replay).st, (runPass app st calls replay).calls, .error replay⟩
      else replayIter app f m (runPass app st calls replay).st
        (runPass app st calls replay).calls
        (List.foldl List.erase replay (runPass app st calls replay).toDelete) := rfl

/-- The fuel argument of `replayIter` is irrelevant above the current
deferred-set size: every continuing pass strictly shrinks the set. -/
theorem replayIter_fuel {σ : Type} (app : Record → σ → Bool × σ) :
    ∀ (f g m : Nat) (st : σ) (calls : List CallEv) (replay : List String),
      replay.length < f → replay.length < g →
      replayIter app f m st calls replay = replayIter app g m st calls replay := by
  intro f
  induction f with
  | zero => intro g m st calls replay hf ; omega
  | succ f ih =>
    intro g m st calls replay hf hg
    cases g with
    | zero => omega
    | succ g =>
      simp only [replayIter]
      by_cases he : replay.isEmpty
      · rw [if_pos he, if_pos he]
      · rw [if_neg he, if_neg he]
        by_cases hd : (runPass app st calls replay).toDelete.isEmpty
        · rw [if_pos hd, if_pos hd]
        · rw [if_neg hd, if_neg hd]
          have hne : (runPass app st calls replay).toDelete ≠ [] := by
            simpa [List.isEmpty_iff] using hd
          rcases hx : (runPass app st calls replay).toDelete with _ | ⟨d, ds⟩
          · exact absurd hx hne
          · have hdm : d ∈ replay := by
              have : d ∈ (runPass app st calls replay).toDelete := by
                rw [hx] ; exact List.mem_cons_self d ds
              rcases passFold_toDelete_mem app replay ⟨st, [], calls⟩ d this with h | h
              · cases h
              · exact h
            have hlt : (List.foldl List.erase replay (d :: ds)).length < replay.length :=
              eraseFold_length_lt d ds replay hdm
            exact ih g m _ _ _ (by omega) (by omega)

/-- Unfolding: the loop on an empty deferred set returns the count. -/
theorem replayLoop_nil {σ : Type} (app : Record → σ → Bool × σ) (m : Nat) (st : σ)
    (calls : List CallEv) : replayLoop app m st calls [] = ⟨st, calls, .ok m⟩ := rfl

/-- Unfolding: a non-empty deferred set whose pass resolves nothing makes
the loop abort, with the pass's state and call trace and the untouched
deferred set. -/
theorem replayLoop_stall {σ : Type} (app : Record → σ → Bool × σ) (m : Nat) (st : σ)
    (calls : List CallEv) (replay : List String) (h : replay ≠ [])
    (h2 : passResolved app st replay = []) :
    replayLoop app m st calls replay =
      ⟨passState app st replay, (runPass app st calls replay).calls, .error replay⟩ := by
  have hne : replay.isEmpty = false := by simp [List.isEmpty_iff, h]
  have hd : (runPass app st calls replay).toDelete.isEmpty = true := by
    rw [runPass_toDelete, h2]
    rfl
  unfold replayLoop
  rw [replayIter_succ, hne, hd]
  simp [runPass_st]

/-- A pass that resolves something strictly shrinks the deferred set. -/
theorem nextReplay_length_lt {σ : Type} (app : Record → σ → Bool × σ) (st : σ)
    (replay : List String) (h2 : passResolved app st replay ≠ []) :
    (nextReplay app st replay).length < replay.length := by
  rcases hx : passResolved app st replay with _ | ⟨d, ds⟩
  · exact absurd hx h2
  · have hdm : d ∈ replay := by
      have hmem0 : d ∈ passResolved app st replay := by
        rw [hx]
        exact List.mem_cons_self d ds
      rcases passFold_toDelete_mem app replay ⟨st, [], []⟩ d hmem0 with hmem | hmem
      · cases hmem
      · exact hmem
    unfold nextReplay
    rw [hx]
    exact eraseFold_length_lt d ds replay hdm

/-- Unfolding: a non-empty deferred set whose pass resolves something
makes the loop continue on the shrunken deferred set, from the pass's
state and call trace. -/
theorem replayLoop_step {σ : Type} (app : Record → σ → Bool × σ) (m : Nat) (st : σ)
    (calls : List CallEv) (replay : List String) (h : replay ≠ [])
    (h2 : passResolved app st replay ≠ []) :
    replayLoop app m st calls replay =
      replayLoop app m (passState app st replay) ((runPass app st calls replay).calls)
        (nextReplay app st replay) := by
  have hne : replay.isEmpty = false := by simp [List.isEmpty_iff, h]
  have hd : (runPass app st calls replay).toDelete.isEmpty = false := by
    rw [runPass_toDelete]
    simpa [List.isEmpty_iff] using h2
  have hlt : (nextReplay app st replay).length < replay.length :=
    nextReplay_length_lt app st replay h2
  unfold replayLoop
  rw [replayIter_succ, hne, hd]
  simp only [Bool.false_eq_true, if_false]
  rw [runPass_st, runPass_toDelete]
  show replayIter app replay.length m _ _ (nextReplay app st replay) = _
  exact replayIter_fuel app replay.length ((nextReplay app st replay).length + 1) m _ _ _
    hlt (by omega)

/-- A normal return of the loop returns the untouched match count. -/
theorem replayLoop_ok_eq {σ : Type} (app : Record → σ → Bool × σ) :
    ∀ (fuel : Nat) (replay : List String) (m : Nat) (st : σ) (calls : List CallEv)
      (n : Nat), replay.length ≤ fuel →
      (replayLoop app m st calls replay).result = .ok n → n = m := by
  intro fuel
  induction fuel with
  | zero =>
    intro replay m st calls n hlen h
    have : replay = [] := List.length_eq_zero.mp (Nat.le_zero.mp hlen)
    subst this
    rw [replayLoop_nil] at h
    exact (Except.ok.injEq _ _).mp h |>.symm
  | succ fuel ih =>
    intro replay m st calls n hlen h
    by_cases he : replay = []
    · subst he
      rw [replayLoop_nil] at h
      exact (Except.ok.injEq _ _).mp h |>.symm
    · by_cases hr : passResolved app st replay = []
      · rw [replayLoop_stall app m st calls replay he hr] at h
        cases h
      · rw [replayLoop_step app m st calls replay he hr] at h
        have hlt : (nextReplay app st replay).length < replay.length :=
          nextReplay_length_lt app st replay hr
        exact ih _ m _ _ n (by omega) h

/-! ### Per-line call-count lemmas for the replay phase -/

/-- `passFold_countLine` at the `runPass` level. -/
theorem runPass_countLine {σ : Type} (app : Record → σ → Bool × σ) (st : σ)
    (c : List CallEv) (replay : List String) (l : String) :
    (runPass app st c replay).calls.countP (fun ev => ev.line == l) =
      c.countP (fun ev => ev.line == l) +
        (if (replayClassify l).isSome then replay.count l else 0) := by
  unfold runPass
  exact passFold_countLine app replay ⟨st, [], c⟩ l

/-- `passFold_countTrue_le` at the `runPass` level. -/
theorem runPass_countTrue_le {σ : Type} (app : Record → σ → Bool × σ) (st : σ)
    (c : List CallEv) (replay : List String) (l : String) :
    (runPass app st c replay).calls.countP (fun ev => ev.line == l && ev.ok) ≤
      c.countP (fun ev => ev.line == l && ev.ok) + replay.count l := by
  unfold runPass
  exact passFold_countTrue_le app replay ⟨st, [], c⟩ l

/-- `passFold_true_toDelete` at the `runPass` level. -/
theorem runPass_true_toDelete {σ : Type} (app : Record → σ → Bool × σ) (st : σ)
    (c : List CallEv) (replay : List String) (l : String)
    (h : c.countP (fun ev => ev.line == l && ev.ok) <
      (runPass app st c replay).calls.countP (fun ev => ev.line == l && ev.ok)) :
    l ∈ passResolved app st replay := by
  rw [← runPass_toDelete app st c replay]
  exact passFold_true_toDelete app replay ⟨st, [], c⟩ l h

/-- A pass issues no call for a line absent from its input. -/
theorem runPass_countTrue_notmem {σ : Type} (app : Record → σ → Bool × σ) (st : σ)
    (c : List CallEv) (replay : List String) (l : String) (h : l ∉ replay) :
    (runPass app st c replay).calls.countP (fun ev => ev.line == l && ev.ok) =
      c.countP (fun ev => ev.line == l && ev.ok) := by
  have hline := runPass_countLine app st c replay l
  have hcount : replay.count l = 0 := List.count_eq_zero.mpr h
  rw [hcount] at hline
  have hline' : (runPass app st c replay).calls.countP (fun ev => ev.line == l) =
      c.countP (fun ev => ev.line == l) := by
    rw [hline]
    split <;> rfl
  rw [runPass_calls] at hline' ⊢
  rw [List.countP_append] at hline' ⊢
  have hz : (runPass app st [] replay).calls.countP (fun ev => ev.line == l) = 0 := by omega
  have hz2 : (runPass app st [] replay).calls.countP (fun ev => ev.line == l && ev.ok) = 0 := by
    rw [List.countP_eq_zero] at hz ⊢
    intro ev hev
    have h0 := hz ev hev
    simp only [Bool.not_eq_true] at h0 ⊢
    rw [h0]
    rfl
  omega

/-- The replay loop issues no call for a line absent from the deferred
set. -/
theorem replayLoop_countTrue_notmem {σ : Type} (app : Record → σ → Bool × σ) :
    ∀ (fuel : Nat) (replay : List String) (m : Nat) (st : σ) (c : List CallEv) (l : String),
      replay.length ≤ fuel → l ∉ replay →
      (replayLoop app m st c replay).calls.countP (fun ev => ev.line == l && ev.ok) =
        c.countP (fun ev => ev.line == l && ev.ok) := by
  intro fuel
  induction fuel with
  | zero =>
    intro replay m st c l hlen hmem
    have : replay = [] := List.length_eq_zero.mp (Nat.le_zero.mp hlen)
    subst this
    rw [replayLoop_nil]
  | succ fuel ih =>
    intro replay m st c l hlen hmem
    by_cases he : replay = []
    · subst he
      rw [replayLoop_nil]
    · by_cases hr : passResolved app st replay = []
      · rw [replayLoop_stall app m st c replay he hr]
        exact runPass_countTrue_notmem app st c replay l hmem
      · rw [replayLoop_step app m st c replay he hr]
        have hlt : (nextReplay app st replay).length < replay.length :=
          nextReplay_length_lt app st replay hr
        have hmem' : l ∉ nextReplay app st replay := by
          intro hx
          exact hmem ((eraseFold_sublist _ replay).subset hx)
        rw [ih _ m _ _ l (by omega) hmem']
        exact runPass_countTrue_notmem app st c replay l hmem

/-- Over a duplicate-free deferred set, the whole replay loop issues at
most `count l replay` successful calls for the line `l` beyond those of
the incoming trace. -/
theorem replayLoop_countTrue_nodup {σ : Type} (app : Record → σ → Bool × σ) :
    ∀ (fuel : Nat) (replay : List String) (m : Nat) (st : σ) (c : List CallEv) (l : String),
      replay.length ≤ fuel → replay.Nodup →
      (replayLoop app m st c replay).calls.countP (fun ev => ev.line == l && ev.ok) ≤
        c.countP (fun ev => ev.line == l && ev.ok) + replay.count l := by
  intro fuel
  induction fuel with
  | zero =>
    intro replay m st c l hlen hnd
    have : replay = [] := List.length_eq_zero.mp (Nat.le_zero.mp hlen)
    subst this
    rw [replayLoop_nil]
    simp
  | succ fuel ih =>
    intro replay m st c l hlen hnd
    by_cases he : replay = []
    · subst he
      rw [replayLoop_nil]
      simp
    · by_cases hr : passResolved app st replay = []
      · rw [replayLoop_stall app m st c replay he hr]
        exact runPass_countTrue_le app st c replay l
      · rw [replayLoop_step app m st c replay he hr]
        have hlt : (nextReplay app st replay).length < replay.length :=
          nextReplay_length_lt app st replay hr
        by_cases hgt : c.countP (fun ev => ev.line == l && ev.ok) <
            (runPass app st c replay).calls.countP (fun ev => ev.line == l && ev.ok)
        · have hres : l ∈ passResolved app st replay :=
            runPass_true_toDelete app st c replay l hgt
          have hout : l ∉ nextReplay app st replay :=
            eraseFold_not_mem (passResolved app st replay) replay l hnd hres
          rw [replayLoop_countTrue_notmem app fuel _ m _ _ l (by omega) hout]
          exact runPass_countTrue_le app st c replay l
        · have hle : (runPass app st c replay).calls.countP
              (fun ev => ev.line == l && ev.ok) ≤
              c.countP (fun ev => ev.line == l && ev.ok) := Nat.le_of_not_lt hgt
          have hnd' : (nextReplay app st replay).Nodup :=
            eraseFold_nodup (passResolved app st replay) replay hnd
          have hcle : (nextReplay app st replay).count l ≤ replay.count l :=
            (eraseFold_sublist (passResolved app st replay) replay).count_le l
          have := ih (nextReplay app st replay) m (passState app st replay)
            ((runPass app st c replay).calls) l (by omega) hnd'
          omega

/-! ### Characterization of the loop through the pass-step iteration -/

/-- The step is undefined on an empty deferred set. -/
theorem stepFn_nil {σ : Type} (app : Record → σ → Bool × σ) (s : σ) :
    stepFn app (s, ([] : List String)) = none := by
  simp [stepFn]

/-- The step is undefined at a stalled pass. -/
theorem stepFn_stall {σ : Type} (app : Record → σ → Bool × σ) (s : σ) (r : List String)
    (h : r ≠ []) (h2 : passResolved app s r = []) : stepFn app (s, r) = none := by
  simp [stepFn, h, h2]

/-- The step advances a progressing pass. -/
theorem stepFn_go {σ : Type} (app : Record → σ → Bool × σ) (s : σ) (r : List String)
    (h : r ≠ []) (h2 : passResolved app s r ≠ []) :
    stepFn app (s, r) = some (passState app s r, nextReplay app s r) := by
  simp [stepFn, h, h2]

/-- Iteration is stuck on an empty deferred set. -/
theorem stepN_nil_eq {σ : Type} (app : Record → σ → Bool × σ) :
    ∀ (k : Nat) (st s : σ) (rem : List String),
      stepN app k (st, ([] : List String)) = some (s, rem) → s = st ∧ rem = [] := by
  intro k st s rem h
  cases k with
  | zero =>
    simp only [stepN, Option.some.injEq, Prod.mk.injEq] at h
    exact ⟨h.1.symm, h.2.symm⟩
  | succ k =>
    simp [stepN, stepFn_nil] at h

/-- Iteration is stuck after an undefined step. -/
theorem stepN_succ_none {σ : Type} (app : Record → σ → Bool × σ) (k : Nat)
    (p : σ × List String) (h : stepFn app p = none) : stepN app (k + 1) p = none := by
  simp [stepN, h]

/-- Iteration shifts across a defined step. -/
theorem stepN_succ_some {σ : Type} (app : Record → σ → Bool × σ) (k : Nat)
    (p q : σ × List String) (h : stepFn app p = some q) :
    stepN app (k + 1) p = stepN app k q := by
  simp [stepN, h]

/-- Characterization at an empty deferred set. -/
theorem replayLoop_charact_nil {σ : Type} (app : Record → σ → Bool × σ) (m : Nat) (st : σ)
    (calls : List CallEv) :
    ((∃ k, (replayLoop app m st calls ([] : List String)).result = .ok k) ↔
      (∃ k s, stepN app k (st, ([] : List String)) = some (s, ([] : List String)))) ∧
    (∀ rem, (replayLoop app m st calls ([] : List String)).result = .error rem ↔
      ∃ k s, stepN app k (st, ([] : List String)) = some (s, rem) ∧ rem ≠ [] ∧
        passResolved app s rem = []) := by
  rw [replayLoop_nil]
  constructor
  · constructor
    · intro _
      exact ⟨0, st, rfl⟩
    · intro _
      exact ⟨m, rfl⟩
  · intro rem
    constructor
    · intro h
      cases h
    · rintro ⟨k, s, h1, h2, _⟩
      exact absurd (stepN_nil_eq app k st s rem h1).2 h2

/-- The loop returns normally exactly when iterating the pass step
empties the deferred set, and aborts with remainder `rem` exactly when
iterating the pass step reaches `rem` non-empty with a pass resolving
nothing (bounded-length auxiliary version). -/
theorem replayLoop_charact_aux {σ : Type} (app : Record → σ → Bool × σ) :
    ∀ (n m : Nat) (st : σ) (calls : List CallEv) (replay : List String),
      replay.length ≤ n →
      (((∃ k, (replayLoop app m st calls replay).result = .ok k) ↔
          (∃ k s, stepN app k (st, replay) = some (s, ([] : List String)))) ∧
        (∀ rem, (replayLoop app m st calls replay).result = .error rem ↔
          ∃ k s, stepN app k (st, replay) = some (s, rem) ∧ rem ≠ [] ∧
            passResolved app s rem = [])) := by
  intro n
  induction n with
  | zero =>
    intro m st calls replay hlen
    have : replay = [] := List.length_eq_zero.mp (Nat.le_zero.mp hlen)
    subst this
    exact replayLoop_charact_nil app m st calls
  | succ n ih =>
    intro m st calls replay hlen
    by_cases he : replay = []
    · subst he
      exact replayLoop_charact_nil app m st calls
    · by_cases hr : passResolved app st replay = []
      · rw [replayLoop_stall app m st calls replay he hr]
        constructor
        · constructor
          · rintro ⟨k, hk⟩
            cases hk
          · rintro ⟨k, s, hk⟩
            cases k with
            | zero =>
              simp only [stepN, Option.some.injEq, Prod.mk.injEq] at hk
              exact absurd hk.2 he
            | succ k =>
              rw [stepN_succ_none app k _ (stepFn_stall app st replay he hr)] at hk
              cases hk
        · intro rem
          constructor
          · intro hk
            have hrem : rem = replay := by
              injection hk with h'
              exact h'.symm
            subst hrem
            exact ⟨0, st, rfl, he, hr⟩
          · rintro ⟨k, s, h1, h2, h3⟩
            cases k with
            | zero =>
              simp only [stepN, Option.some.injEq, Prod.mk.injEq] at h1
              rw [h1.2]
            | succ k =>
              rw [stepN_succ_none app k _ (stepFn_stall app st replay he hr)] at h1
              cases h1
      · rw [replayLoop_step app m st calls replay he hr]
        have hgo : stepFn app (st, replay) =
            some (passState app st replay, nextReplay app st replay) :=
          stepFn_go app st replay he hr
        have hlt : (nextReplay app st replay).length < replay.length :=
          nextReplay_length_lt app st replay hr
        rcases ih m (passState app st replay) ((runPass app st calls replay).calls)
          (nextReplay app st replay) (by omega) with ⟨ih1, ih2⟩
        constructor
        · rw [ih1]
          constructor
          · rintro ⟨k, s, hk⟩
            exact ⟨k + 1, s, by rw [stepN_succ_some app k _ _ hgo] ; exact hk⟩
          · rintro ⟨k, s, hk⟩
            cases k with
            | zero =>
              simp only [stepN, Option.some.injEq, Prod.mk.injEq] at hk
              exact absurd hk.2 he
            | succ k =>
              rw [stepN_succ_some app k _ _ hgo] at hk
              exact ⟨k, s, hk⟩
        · intro rem
          rw [ih2 rem]
          constructor
          · rintro ⟨k, s, h1, h2, h3⟩
            exact ⟨k + 1, s, by rw [stepN_succ_some app k _ _ hgo] ; exact h1, h2, h3⟩
          · rintro ⟨k, s, h1, h2, h3⟩
            cases k with
            | zero =>
              simp only [stepN, Option.some.injEq, Prod.mk.injEq] at h1
              rcases h1 with ⟨hs, hrem⟩
              subst hs
              subst hrem
              exact absurd h3 hr
            | succ k =>
              rw [stepN_succ_some app k _ _ hgo] at h1
              exact ⟨k, s, h1, h2, h3⟩

/-! ### Soundness of the grammar-separation checker -/

/-- A match of a literal-headed body yields the literal as a prefix and a
match of the remaining elements past it. -/
theorem matchElems_lit_split (s : String) (es : List Elem) (cs : List Char)
    (h : (matchElems (.lit s :: es) cs).isSome) :
    s.toList.isPrefixOf cs = true ∧
      (matchElems es (cs.drop s.toList.length)).isSome := by
  have heq : matchElems (.lit s :: es) cs =
      if s.toList.isPrefixOf cs then matchElems es (cs.drop s.toList.length) else none := rfl
  rw [heq] at h
  by_cases hp : s.toList.isPrefixOf cs
  · rw [if_pos hp] at h
    exact ⟨hp, h⟩
  · rw [if_neg hp] at h
    simp at h

/-- A class-run element only matches an input starting inside the
class. -/
theorem matchElems_grp_head (c : Char → Bool) (es : List Elem) (x : Char) (xs : List Char)
    (h : (matchElems (.grp c :: es) (x :: xs)).isSome) : c x = true := by
  by_cases hx : c x
  · exact hx
  · simp [matchElems, takeCls, hx] at h

/-- A single-class element only matches an input starting inside the
class. -/
theorem matchElems_one_head (c : Char → Bool) (es : List Elem) (x : Char) (xs : List Char)
    (h : (matchElems (.one c :: es) (x :: xs)).isSome) : c x = true := by
  by_cases hx : c x
  · exact hx
  · simp [matchElems, hx] at h

/-- If the shorter keyword is a proper prefix of the longer one and the
shorter body continues with a class rejecting the longer keyword's next
character, the two bodies cannot match the same input. -/
theorem blocked_no_match (s1 s2 : String) (r1 r2 : List Elem) (cs : List Char)
    (c : Char) (t : List Char)
    (hp : s1.toList.isPrefixOf s2.toList = true)
    (hdrop : s2.toList.drop s1.toList.length = c :: t)
    (hblk : clsBlocks r1 c = true)
    (h1 : (matchElems (.lit s1 :: r1) cs).isSome)
    (h2 : (matchElems (.lit s2 :: r2) cs).isSome) : False := by
  rcases matchElems_lit_split s1 r1 cs h1 with ⟨_, hrest1⟩
  rcases matchElems_lit_split s2 r2 cs h2 with ⟨hp2, _⟩
  rcases List.isPrefixOf_iff_prefix.mp hp2 with ⟨u, hu⟩
  have hle : s1.toList.length ≤ s2.toList.length :=
    (List.isPrefixOf_iff_prefix.mp hp).length_le
  have hdrops : cs.drop s1.toList.length = c :: (t ++ u) := by
    rw [← hu, List.drop_append_of_le_length hle, hdrop]
    rfl
  rw [hdrops] at hrest1
  cases r1 with
  | nil => cases hblk
  | cons e1 es1 =>
    cases e1 with
    | lit s => cases hblk
    | grp cl =>
      have : cl c = true := matchElems_grp_head cl es1 c (t ++ u) hrest1
      rw [clsBlocks, this] at hblk
      cases hblk
    | one cl =>
      have : cl c = true := matchElems_one_head cl es1 c (t ++ u) hrest1
      rw [clsBlocks, this] at hblk
      cases hblk

/-- Separated bodies never match the same input. -/
theorem bodySep_sound (b1 b2 : List Elem) (hsep : bodySep b1 b2 = true) (cs : List Char)
    (h1 : (matchElems b1 cs).isSome) (h2 : (matchElems b2 cs).isSome) : False := by
  match b1, b2, hsep with
  | .lit s1 :: r1, .lit s2 :: r2, hsep =>
    rw [bodySep] at hsep
    by_cases heq : s1.toList = s2.toList
    · rw [if_pos heq] at hsep
      cases hsep
    · rw [if_neg heq] at hsep
      by_cases hp12 : s1.toList.isPrefixOf s2.toList
      · rw [if_pos hp12] at hsep
        rcases hx : s2.toList.drop s1.toList.length with _ | ⟨c, t⟩
        · rw [hx] at hsep
          cases hsep
        · rw [hx] at hsep
          exact blocked_no_match s1 s2 r1 r2 cs c t hp12 hx hsep h1 h2
      · rw [if_neg hp12] at hsep
        by_cases hp21 : s2.toList.isPrefixOf s1.toList
        · rw [if_pos hp21] at hsep
          rcases hx : s1.toList.drop s2.toList.length with _ | ⟨c, t⟩
          · rw [hx] at hsep
            cases hsep
          · rw [hx] at hsep
            exact blocked_no_match s2 s1 r2 r1 cs c t hp21 hx hsep h2 h1
        · rcases matchElems_lit_split s1 r1 cs h1 with ⟨hc1, _⟩
          rcases matchElems_lit_split s2 r2 cs h2 with ⟨hc2, _⟩
          rcases List.prefix_or_prefix_of_prefix (List.isPrefixOf_iff_prefix.mp hc1)
              (List.isPrefixOf_iff_prefix.mp hc2) with hor | hor
          · exact hp12 (List.isPrefixOf_iff_prefix.mpr hor)
          · exact hp21 (List.isPrefixOf_iff_prefix.mpr hor)

/-- A pairwise-separated table matches any input at most once. -/
theorem tableSep_count : ∀ (t : List PatEnt), tableSep t = true → ∀ (rest : List Char),
    (t.countP (fun e => (matchElems e.body rest).isSome)) ≤ 1 := by
  intro t
  induction t with
  | nil => intro _ rest ; simp
  | cons e es ih =>
    intro hsep rest
    rcases Bool.and_eq_true _ _ |>.mp hsep with ⟨hall, hrest⟩
    rw [List.countP_cons]
    by_cases hm : (matchElems e.body rest).isSome
    · have hzero : es.countP (fun e2 => (matchElems e2.body rest).isSome) = 0 := by
        rw [List.countP_eq_zero]
        intro e2 he2 hm2
        exact bodySep_sound e.body e2.body (List.all_eq_true.mp hall e2 he2) rest hm
          (by simpa using hm2)
      rw [hzero]
      simp [hm]
    · have hfalse : (matchElems e.body rest).isSome = false := by
        simpa using hm
      rw [hfalse]
      simp only [Bool.false_eq_true, if_false, Nat.add_zero]
      exact ih hrest rest

/-- The scan table is pairwise separated (checked by evaluation). -/
theorem scanTable_sep : tableSep scanTable = true := by decide

/-! ## Claim theorems -/

/-- C1: the spec says every replay pass attempts dispatch for every
Record in the deferred set, and the initial scan can defer
field-creation, region, deletion, index-slice and slice-slice records;
but the replay loop's pattern table omits those five kinds, so such a
deferred record is never re-dispatched.  Failing input: a `Field
Creation` line logged before its `Field Space` line.  The scan defers the
field-creation record (its field space is absent), the field space is
then committed, yet the replay pass matches the deferred line against no
replay pattern (`replayClassify fcLine = none`), issues no further call
(the trace keeps exactly the two scan calls), and the run aborts with
the stall error even though `add_field` would now succeed at the final
state. -/
theorem c1_missing_replay_dispatch :
    classify fcLine = some (.field_create 1 2) ∧
      deferrable (.field_create 1 2) = true ∧
      scanDefers specApply initState [fcLine, fsLine] = [fcLine] ∧
      replayClassify fcLine = none ∧
      (parse_log_file [fcLine, fsLine] specApply initState).result = .error [fcLine] ∧
      (parse_log_file [fcLine, fsLine] specApply initState).calls.length = 2 ∧
      (specApply (.field_create 1 2)
        (parse_log_file [fcLine, fsLine] specApply initState).st).1 = true := by
  refine ⟨by decide, by decide, by decide, by decide, by decide, by decide, by decide⟩

/-- C2 counterexample: a processor declaration is not an unconditional
kind in the code: the dispatch at lines 85-89 checks the verdict of
`add_processor` and appends the line to `replay_lines` when it is
`False` (here, under the spec's dependent-kind contract, because the
processor's utility processor is not yet declared), so a processor
record is added to the deferred set. -/
theorem c2_processor_deferred_cex :
    classify pLine = some (.processor 7 5 1) ∧
      (specApply (.processor 7 5 1) initState).1 = false ∧
      scanDefers specApply initState [pLine] = [pLine] := by
  refine ⟨by decide, by decide, by decide⟩

/-- C2 amended: for every input log, a record of a verdict-ignored kind
(utility, memory, index-space, field-space, top-task, event-event,
implicit-event) is dispatched once during the initial scan and never
added to the deferred set; processor declarations are instead
deferrable. -/
theorem c2_unconditional_never_deferred :
    ∀ (σ : Type) (app : Record → σ → Bool × σ) (st0 : σ) (log : List String) (l : String)
      (r : Record), classify l = some r → deferrable r = false →
      l ∉ scanDefers app st0 log := by
  intro σ app st0 log l r hc hd hmem
  rcases scanFold_defers_classified app log ⟨0, st0, [], []⟩ l hmem with h | ⟨r', hc', hd'⟩
  · cases h
  · rw [hc] at hc'
    cases hc'
    rw [hd] at hd'
    cases hd'

/-- Witness for C2's amended theorem: a concrete utility-processor line
is classified to a verdict-ignored kind and is not deferred. -/
theorem c2_unconditional_never_deferred_w :
    classify uLine = some (.utility 5) ∧ uLine ∉ scanDefers trivApply () [uLine] :=
  ⟨by decide,
    c2_unconditional_never_deferred Unit trivApply () [uLine] uLine (.utility 5) (by decide)
      (by decide)⟩

/-- C3 counterexample: an event-to-event edge whose mutation call
returns `False` is not added to the deferred set: the dispatch at lines
211-214 ignores the verdict of `add_event_dependence`, so the record is
dispatched exactly once, the deferred set stays empty and the run
returns normally. -/
theorem c3_event_edge_verdict_ignored_cex :
    classify evLine = some (.event_event 1 2 3 4) ∧
      (specApply (.event_event 1 2 3 4) initState).1 = false ∧
      scanDefers specApply initState [evLine] = [] ∧
      (parse_log_file [evLine] specApply initState).result = .ok 1 ∧
      (parse_log_file [evLine] specApply initState).calls =
        [⟨evLine, .event_event 1 2 3 4, false⟩] := by
  refine ⟨by decide, by decide, by decide, by decide, by decide⟩

/-- C3 amended: every deferred line holds a record of a verdict-checked
kind; every verdict-checked record whose call returns `False` at the
state the scan has reached is deferred; but event-to-event edges are
dispatched once with the verdict ignored and are never deferred. -/
theorem c3_checked_kinds_deferrable :
    (∀ (σ : Type) (app : Record → σ → Bool × σ) (st0 : σ) (log : List String) (l : String),
      l ∈ scanDefers app st0 log → ∃ r, classify l = some r ∧ deferrable r = true) ∧
    (∀ (σ : Type) (app : Record → σ → Bool × σ) (st0 : σ) (xs : List String) (l : String)
      (r : Record), classify l = some r → deferrable r = true →
      (app r (scanAcc app st0 xs).st).1 = false → l ∈ scanDefers app st0 (xs ++ [l])) ∧
    (∀ (σ : Type) (app : Record → σ → Bool × σ) (st0 : σ) (log : List String) (l : String)
      (a b c d : Nat), classify l = some (.event_event a b c d) →
      l ∉ scanDefers app st0 log) := by
  refine ⟨?_, ?_, ?_⟩
  · intro σ app st0 log l hmem
    rcases scanFold_defers_classified app log ⟨0, st0, [], []⟩ l hmem with h | h
    · cases h
    · exact h
  · intro σ app st0 xs l r hc hd hv
    show l ∈ (List.foldl (scanStep app) ⟨0, st0, [], []⟩ (xs ++ [l])).defers
    rw [List.foldl_append, List.foldl_cons, List.foldl_nil,
      ← scanFold_defers_append app (List.foldl (scanStep app) ⟨0, st0, [], []⟩ xs) l r hc hd hv]
    exact List.mem_append_right _ (List.mem_singleton.mpr rfl)
  · intro σ app st0 log l a b c d hc hmem
    rcases scanFold_defers_classified app log ⟨0, st0, [], []⟩ l hmem with h | ⟨r', hc', hd'⟩
    · cases h
    · rw [hc] at hc'
      cases hc'
      cases hd'

/-- Witness for C3's amended theorem: the concrete processor line, a
verdict-checked kind whose call returns `False` on the empty state, is
deferred when it is the log's only line. -/
theorem c3_checked_kinds_deferrable_w :
    classify pLine = some (.processor 7 5 1) ∧
      deferrable (.processor 7 5 1) = true ∧
      pLine ∈ scanDefers specApply initState [pLine] :=
  ⟨by decide, by decide,
    c3_checked_kinds_deferrable.2.1 SpyState specApply initState [] pLine (.processor 7 5 1)
      (by decide) (by decide) (by decide)⟩

/-- C4 counterexample: on the synthetic stalling input (an index
subspace whose parent partition never appears) the engine's entire
printed output is the one fixed error message — the remaining unresolved
record's kind and fields are not enumerated anywhere in the output. -/
theorem c4_stall_output_cex :
    (parse_log_file [subLine] specApply initState).output = [errMsg] ∧
      (parse_log_file [subLine] specApply initState).result = .error [subLine] := by
  refine ⟨by decide, by decide⟩

/-- C4 amended: on fatal stall the code prints only the fixed error
message and raises; the unresolved records are not printed, but the
deferred set at the abort contains exactly the synthetic record, which
was dispatched exactly twice (once in the scan, once in the single
no-progress replay pass), both times with verdict `False`. -/
theorem c4_stall_deferred_exact :
    classify subLine = some (.index_subspace 5 6 0) ∧
      (parse_log_file [subLine] specApply initState).result = .error [subLine] ∧
      (parse_log_file [subLine] specApply initState).calls =
        [⟨subLine, .index_subspace 5 6 0, false⟩, ⟨subLine, .index_subspace 5 6 0, false⟩] := by
  refine ⟨by decide, by decide, by decide⟩

/-- C5: the run aborts fatally with remainder `rem` if and only if
iterating the pass step from the post-scan deferred set reaches the
non-empty set `rem` whose full pass resolves nothing (so the abort
happens at the first such pass, the iteration being defined only while
passes progress), and the run returns normally if and only if the
iteration empties the deferred set. -/
theorem c5_stall_iff_no_progress :
    ∀ (σ : Type) (app : Record → σ → Bool × σ) (st0 : σ) (log : List String),
      ((∃ k, (parse_log_file log app st0).result = .ok k) ↔
        (∃ k s, stepN app k ((scanAcc app st0 log).st, scanDefers app st0 log) =
          some (s, ([] : List String)))) ∧
      (∀ rem, (parse_log_file log app st0).result = .error rem ↔
        ∃ k s, stepN app k ((scanAcc app st0 log).st, scanDefers app st0 log) =
          some (s, rem) ∧ rem ≠ [] ∧ passResolved app s rem = []) := by
  intro σ app st0 log
  exact replayLoop_charact_aux app (scanDefers app st0 log).length
    (scanAcc app st0 log).matched (scanAcc app st0 log).st (scanAcc app st0 log).calls
    (scanDefers app st0 log) (le_refl _)

/-- C6: a replay pass over a non-empty deferred set either resolves
nothing — and the loop immediately aborts with exactly that set — or
strictly shrinks the deferred set and continues from the pass's state;
the loop never proceeds past a no-progress pass. -/
theorem c6_pass_progress :
    ∀ (σ : Type) (app : Record → σ → Bool × σ) (m : Nat) (st : σ) (calls : List CallEv)
      (replay : List String), replay ≠ [] →
      (passResolved app st replay = [] ∧
        (replayLoop app m st calls replay).result = .error replay) ∨
      (passResolved app st replay ≠ [] ∧
        (nextReplay app st replay).length < replay.length ∧
        replayLoop app m st calls replay =
          replayLoop app m (passState app st replay) ((runPass app st calls replay).calls)
            (nextReplay app st replay)) := by
  intro σ app m st calls replay h
  by_cases hr : passResolved app st replay = []
  · left
    refine ⟨hr, ?_⟩
    rw [replayLoop_stall app m st calls replay h hr]
  · right
    exact ⟨hr, nextReplay_length_lt app st replay hr,
      replayLoop_step app m st calls replay h hr⟩

/-- Witness for C6: the concrete stalling deferred set. -/
theorem c6_pass_progress_w :
    (passResolved specApply initState [subLine] = [] ∧
      (replayLoop specApply 1 initState [] [subLine]).result = .error [subLine]) ∨
    (passResolved specApply initState [subLine] ≠ [] ∧
      (nextReplay specApply initState [subLine]).length < [subLine].length ∧
      replayLoop specApply 1 initState [] [subLine] =
        replayLoop specApply 1 (passState specApply initState [subLine])
          ((runPass specApply initState [] [subLine]).calls)
          (nextReplay specApply initState [subLine])) :=
  c6_pass_progress SpyState specApply 1 initState [] [subLine] (by decide)

/-- C7 counterexample: with two identical deferred processor lines (two
Records by identity) and their utility declared later, the run succeeds
but issues three successful `add_processor` calls for that line — more
than the two Records — because the pass's `to_delete` set holds the line
once while `replay_lines.remove` deletes a single occurrence; after the
pass in which the line's call returned `True`, one copy is still in the
deferred set and is dispatched (successfully) again. -/
theorem c7_duplicate_line_recommit_cex :
    ([pLine, pLine, uLine].count pLine = 2) ∧
      (parse_log_file [pLine, pLine, uLine] specApply initState).result = .ok 3 ∧
      (parse_log_file [pLine, pLine, uLine] specApply initState).calls.countP
        (fun ev => ev.line == pLine && ev.ok) = 3 ∧
      passResolved specApply (scanAcc specApply initState [pLine, pLine, uLine]).st
        [pLine, pLine] = [pLine] ∧
      nextReplay specApply (scanAcc specApply initState [pLine, pLine, uLine]).st
        [pLine, pLine] = [pLine] := by
  refine ⟨by decide, by decide, by decide, by decide, by decide⟩

/-- C7 amended: within one replay pass every occurrence of a deferred
line is dispatched exactly once (so each Record is retried at most once
per pass); and when the deferred set contains no duplicate lines, the
whole replay phase issues at most one successful mutation call per line,
i.e. a call that returned `True` for a Record is never issued again. -/
theorem c7_retry_discipline :
    (∀ (σ : Type) (app : Record → σ → Bool × σ) (st : σ) (c : List CallEv)
      (replay : List String) (l : String),
      (runPass app st c replay).calls.countP (fun ev => ev.line == l) =
        c.countP (fun ev => ev.line == l) +
          (if (replayClassify l).isSome then replay.count l else 0)) ∧
    (∀ (σ : Type) (app : Record → σ → Bool × σ) (m : Nat) (st : σ) (replay : List String)
      (l : String), replay.Nodup →
      (replayLoop app m st [] replay).calls.countP (fun ev => ev.line == l && ev.ok) ≤ 1) := by
  constructor
  · intro σ app st c replay l
    exact runPass_countLine app st c replay l
  · intro σ app m st replay l hnd
    have h := replayLoop_countTrue_nodup app replay.length replay m st [] l (le_refl _) hnd
    have hcount : replay.count l ≤ 1 := List.nodup_iff_count_le_one.mp hnd l
    simpa using le_trans h (by simpa using hcount)

/-- Witness for C7's amended theorem: a concrete duplicate-free deferred
set gets at most one successful call for its line. -/
theorem c7_retry_discipline_w :
    ([subLine] : List String).Nodup ∧
      (replayLoop specApply 0 initState [] [subLine]).calls.countP
        (fun ev => ev.line == subLine && ev.ok) ≤ 1 :=
  ⟨by decide, c7_retry_discipline.2 SpyState specApply 0 initState [subLine] subLine
    (by decide)⟩

/-- C8: the record grammars are mutually exclusive — for every text
line, at most one pattern of the classifier table matches it, so
classification does not depend on the order the table is tried in. -/
theorem c8_grammars_mutually_exclusive :
    ∀ (s : String), scanTable.countP (fun e => (matchPat e.body s).isSome) ≤ 1 := by
  intro s
  cases hh : matchElems logHead s.toList with
  | none =>
    have hz : scanTable.countP (fun e => (matchPat e.body s).isSome) = 0 := by
      rw [List.countP_eq_zero]
      intro e _ hm
      simp only [matchPat, hh] at hm
      exact Bool.noConfusion hm
    omega
  | some pr =>
    rcases pr with ⟨caps, rest⟩
    have hcong : scanTable.countP (fun e => (matchPat e.body s).isSome) =
        scanTable.countP (fun e => (matchElems e.body rest).isSome) := by
      refine List.countP_congr ?_
      intro e _
      simp only [matchPat, hh]
      cases hb : matchElems e.body rest with
      | none => rfl
      | some q =>
        rcases q with ⟨caps2, rest2⟩
        rfl
    rw [hcong]
    exact tableSep_count scanTable scanTable_sep rest

/-- C9: a line matching no grammar is skipped non-fatally: the run's
result, final state, call trace, match counter and deferred set are
those of the same log without that line; the line itself is never
deferred, and its skip message is reported to the output. -/
theorem c9_unmatched_line_skipped :
    ∀ (σ : Type) (app : Record → σ → Bool × σ) (st0 : σ) (xs ys : List String) (l : String),
      classify l = none →
      (parse_log_file (xs ++ l :: ys) app st0).result =
          (parse_log_file (xs ++ ys) app st0).result ∧
        (parse_log_file (xs ++ l :: ys) app st0).st = (parse_log_file (xs ++ ys) app st0).st ∧
        (parse_log_file (xs ++ l :: ys) app st0).calls =
          (parse_log_file (xs ++ ys) app st0).calls ∧
        scanMatches app st0 (xs ++ l :: ys) = scanMatches app st0 (xs ++ ys) ∧
        l ∉ scanDefers app st0 (xs ++ l :: ys) ∧
        skipMsg l ∈ (parse_log_file (xs ++ l :: ys) app st0).output := by
  intro σ app st0 xs ys l h
  have hacc : List.foldl (scanStep app) (⟨0, st0, [], []⟩ : ScanAcc σ) (xs ++ l :: ys) =
      List.foldl (scanStep app) (⟨0, st0, [], []⟩ : ScanAcc σ) (xs ++ ys) := by
    rw [List.foldl_append, List.foldl_append, List.foldl_cons,
      scanStep_unclassified app _ l h]
  have hscan : scanAcc app st0 (xs ++ l :: ys) = scanAcc app st0 (xs ++ ys) := hacc
  refine ⟨?_, ?_, ?_, ?_, ?_, ?_⟩
  · simp only [parse_log_file]
    rw [hscan]
  · simp only [parse_log_file]
    rw [hscan]
  · simp only [parse_log_file]
    rw [hscan]
  · show (scanAcc app st0 (xs ++ l :: ys)).matched = (scanAcc app st0 (xs ++ ys)).matched
    rw [hscan]
  · intro hmem
    rcases scanFold_defers_classified app (xs ++ l :: ys) ⟨0, st0, [], []⟩ l hmem
      with h' | ⟨r, hc, _⟩
    · cases h'
    · rw [h] at hc
      cases hc
  · simp only [parse_log_file]
    refine List.mem_append_left _ ?_
    refine List.mem_map.mpr ⟨l, ?_, rfl⟩
    refine List.mem_filter.mpr ⟨List.mem_append_right xs (List.mem_cons_self l ys), ?_⟩
    rw [h]
    rfl

/-- Witness for C9: a concrete decorative line in front of a utility
line changes nothing but the reported skip message. -/
theorem c9_unmatched_line_skipped_w :
    classify junkLine = none ∧
      (parse_log_file [junkLine, uLine] trivApply ()).result =
          (parse_log_file [uLine] trivApply ()).result ∧
        (parse_log_file [junkLine, uLine] trivApply ()).st =
          (parse_log_file [uLine] trivApply ()).st ∧
        (parse_log_file [junkLine, uLine] trivApply ()).calls =
          (parse_log_file [uLine] trivApply ()).calls ∧
        scanMatches trivApply () [junkLine, uLine] = scanMatches trivApply () [uLine] ∧
        junkLine ∉ scanDefers trivApply () [junkLine, uLine] ∧
        skipMsg junkLine ∈ (parse_log_file [junkLine, uLine] trivApply ()).output :=
  ⟨by decide, c9_unmatched_line_skipped Unit trivApply () [] [uLine] junkLine (by decide)⟩

/-- C10: whenever `parse_log_file` returns normally, the returned value
is the number of log lines the initial scan classified — unclassified
lines are not counted, deferred lines are counted at classification
time, and the replay phase never changes the counter. -/
theorem c10_match_count :
    ∀ (σ : Type) (app : Record → σ → Bool × σ) (st0 : σ) (log : List String) (n : Nat),
      (parse_log_file log app st0).result = .ok n →
      n = log.countP (fun l => (classify l).isSome) := by
  intro σ app st0 log n h
  simp only [parse_log_file] at h
  have hm : n = (scanAcc app st0 log).matched :=
    replayLoop_ok_eq app (scanAcc app st0 log).defers.length (scanAcc app st0 log).defers
      (scanAcc app st0 log).matched (scanAcc app st0 log).st (scanAcc app st0 log).calls n
      (le_refl _) h
  rw [hm]
  show (List.foldl (scanStep app) ⟨0, st0, [], []⟩ log).matched = _
  rw [scanFold_matched app log ⟨0, st0, [], []⟩]
  simp

/-- Witness for C10: a log with one classified and one unclassified line
returns the count 1. -/
theorem c10_match_count_w :
    (parse_log_file [uLine, junkLine] trivApply ()).result = .ok 1 ∧
      1 = ([uLine, junkLine] : List String).countP (fun l => (classify l).isSome) :=
  ⟨by decide, c10_match_count Unit trivApply () [uLine, junkLine] 1 (by decide)⟩

end Spy

